import Mathlib

/-! Verification development for the sqlx client-side core: a shallow
embedding of the Postgres binary type codecs
(`sqlx-core/src/postgres/types/int.rs` and
`sqlx-core/src/postgres/types/chrono.rs`) and of the connection-pool
contract, together with proofs of the specification properties.

Conventions of the embedding: machine integers are `Int` with explicit
two's-complement reduction modulo `256 ^ width`; byte buffers are
`List Nat` (each element a byte value); a Rust computation that can
diverge (a `panic` or an `expect`) has codomain `Option _`, with `none`
marking the diverging branch; a Rust `Result<T, DecodeError>` becomes
`Except DecodeError T`. -/

/-- Value of a big-endian byte list, the way `byteorder::NetworkEndian`
reads one. -/
def bytesToNat (bs : List Nat) : Nat :=
  bs.foldl (fun acc b => acc * 256 + b) 0

/-- Big-endian byte list, `width` bytes long, of `n % 256 ^ width`. -/
def natToBeBytes : Nat → Nat → List Nat
  | 0, _ => []
  | k + 1, n => natToBeBytes k (n / 256) ++ [n % 256]

/-- Two's-complement reading of a `width`-byte unsigned value as a signed
integer (how `read_i16` / `read_i32` / `read_i64` interpret the bytes). -/
def sdec (width : Nat) (n : Nat) : Int :=
  if 2 * n < 256 ^ width then (n : Int) else (n : Int) - (256 : Int) ^ width

/-- Big-endian two's-complement bytes of the signed integer `v`, `width`
bytes wide (Rust `to_be_bytes` on a signed fixed-width integer). -/
def intToBeBytes (width : Nat) (v : Int) : List Nat :=
  natToBeBytes width (v % (256 : Int) ^ width).toNat

/-- Modelled from the spec: `sqlx-core/src/decode.rs` is not among the
provided sources; the spec names a `Malformed` decode failure and
`chrono.rs` constructs a `Message` variant, so the error enum is modelled
with both. -/
inductive DecodeError where
  | Malformed : DecodeError
  | Message : String → DecodeError
  deriving DecidableEq

/-- Embeds `impl Encode<Postgres> for i16` (`int.rs`): appends
`self.to_be_bytes()` to the buffer. -/
def i16_encode (v : Int) : List Nat := intToBeBytes 2 v

/-- Embeds `impl Decode<Postgres> for i16` (`int.rs`):
`NetworkEndian::read_i16(buf)` reads the first two bytes big-endian and
diverges when the buffer is shorter; the `Result` is always `Ok`. -/
def i16_decode (buf : List Nat) : Option (Except DecodeError Int) :=
  if buf.length < 2 then none
  else some (Except.ok (sdec 2 (bytesToNat (buf.take 2))))

/-- Embeds `impl Encode<Postgres> for i32` (`int.rs`). -/
def i32_encode (v : Int) : List Nat := intToBeBytes 4 v

/-- Embeds `impl Decode<Postgres> for i32` (`int.rs`):
`NetworkEndian::read_i32(buf)`, same shape as the 16-bit reader. -/
def i32_decode (buf : List Nat) : Option (Except DecodeError Int) :=
  if buf.length < 4 then none
  else some (Except.ok (sdec 4 (bytesToNat (buf.take 4))))

/-- Embeds `impl Encode<Postgres> for i64` (`int.rs`). -/
def i64_encode (v : Int) : List Nat := intToBeBytes 8 v

/-- Embeds `impl Decode<Postgres> for i64` (`int.rs`):
`NetworkEndian::read_i64(buf)`, same shape as the 16-bit reader. -/
def i64_decode (buf : List Nat) : Option (Except DecodeError Int) :=
  if buf.length < 8 then none
  else some (Except.ok (sdec 8 (bytesToNat (buf.take 8))))

theorem bytesToNat_append (l : List Nat) (b : Nat) :
    bytesToNat (l ++ [b]) = bytesToNat l * 256 + b := by
  simp [bytesToNat, List.foldl_append]

theorem natToBeBytes_length (k n : Nat) : (natToBeBytes k n).length = k := by
  induction k generalizing n with
  | zero => rfl
  | succ k ih => simp [natToBeBytes, ih]

theorem bytesToNat_natToBeBytes (k n : Nat) (h : n < 256 ^ k) :
    bytesToNat (natToBeBytes k n) = n := by
  induction k generalizing n with
  | zero =>
      simp only [natToBeBytes, bytesToNat, List.foldl_nil]
      simp only [pow_zero] at h
      omega
  | succ k ih =>
      have hdiv : n / 256 < 256 ^ k := by
        rw [pow_succ, mul_comm] at h
        exact Nat.div_lt_of_lt_mul h
      rw [natToBeBytes, bytesToNat_append, ih (n / 256) hdiv]
      omega

theorem intToBeBytes_length (k : Nat) (v : Int) :
    (intToBeBytes k v).length = k :=
  natToBeBytes_length k _

theorem take_intToBeBytes (k : Nat) (v : Int) :
    (intToBeBytes k v).take k = intToBeBytes k v :=
  List.take_of_length_le (le_of_eq (intToBeBytes_length k v))

/-- Round-trip of the two's-complement byte encoding, generic over the
width: signed values in range come back unchanged. -/
theorem sdec_intToBeBytes (k : Nat) (v : Int)
    (h1 : -((256 : Int) ^ k) ≤ 2 * v) (h2 : 2 * v < (256 : Int) ^ k) :
    sdec k (bytesToNat (intToBeBytes k v)) = v := by
  have hM : (0 : Int) < (256 : Int) ^ k := by positivity
  have hcast : ((256 ^ k : Nat) : Int) = (256 : Int) ^ k := by push_cast; ring
  have hnn : 0 ≤ v % (256 : Int) ^ k := Int.emod_nonneg v (ne_of_gt hM)
  have hlt : v % (256 : Int) ^ k < (256 : Int) ^ k := Int.emod_lt_of_pos v hM
  have hval : v % (256 : Int) ^ k = if 0 ≤ v then v else v + (256 : Int) ^ k := by
    split
    · exact Int.emod_eq_of_lt (by assumption) (by omega)
    · have hshift : (v + (256 : Int) ^ k * 1) % (256 : Int) ^ k = v % (256 : Int) ^ k :=
        Int.add_mul_emod_self_left v ((256 : Int) ^ k) 1
      rw [mul_one] at hshift
      rw [← hshift]
      exact Int.emod_eq_of_lt (by omega) (by omega)
  have hn' : (((v % (256 : Int) ^ k).toNat : Nat) : Int) = v % (256 : Int) ^ k :=
    Int.toNat_of_nonneg hnn
  have hnk : (v % (256 : Int) ^ k).toNat < 256 ^ k := by omega
  unfold intToBeBytes
  rw [bytesToNat_natToBeBytes k _ hnk]
  unfold sdec
  split <;> omega

/-- Days from civil 1970-01-01 of the proleptic-Gregorian date `y-m-d`
(the standard `days_from_civil` computation, which is what chrono's
`NaiveDate` difference arithmetic amounts to). -/
def daysFromCivil (y : Int) (m d : Nat) : Int :=
  let y2 : Int := if m ≤ 2 then y - 1 else y
  let era : Int := Int.fdiv y2 400
  let yoe : Int := y2 - era * 400
  let mp : Int := if m ≤ 2 then (m : Int) + 9 else (m : Int) - 3
  let doy : Int := Int.fdiv (153 * mp + 2) 5 + (d : Int) - 1
  let doe : Int := yoe * 365 + Int.fdiv yoe 4 - Int.fdiv yoe 100 + doy
  era * 146097 + doe - 719468

/-- Day offset from the Postgres protocol epoch (civil 2000-01-01) of the
civil date `y-m-d`: the denotation of a chrono `NaiveDate` in this
development, and the value the source computes as
`date.signed_duration_since(NaiveDate::from_ymd(2000, 1, 1)).num_days()`. -/
def civilDate (y : Int) (m d : Nat) : Int :=
  daysFromCivil y m d - daysFromCivil 2000 1 1

example : daysFromCivil 1970 1 1 = 0 := by decide
example : civilDate 2000 1 1 = 0 := by decide
example : civilDate 2000 3 1 = 60 := by decide
example : civilDate 1999 12 31 = -1 := by decide

/-- Smallest chrono `NaiveDate` (civil -262144-01-01) as a day offset from
the Postgres epoch. -/
def naiveDateMinDays : Int := civilDate (-262144) 1 1

/-- Largest chrono `NaiveDate` (civil 262143-12-31) as a day offset from
the Postgres epoch. -/
def naiveDateMaxDays : Int := civilDate 262143 12 31

/-- Nanoseconds in one day; a chrono `NaiveTime` is embedded as its
nanoseconds since midnight, a `Nat` below this bound (leap-second
representations aside). -/
def nsPerDay : Nat := 86400000000000

/-- Embeds `impl Encode<Postgres> for NaiveTime` (`chrono.rs`): the whole
microseconds since midnight (`num_microseconds` floors the nanosecond
count), encoded through the i64 encoder; `none` is the `expect` branch
taken when the microsecond count falls outside i64. -/
def NaiveTime_encode (t : Nat) : Option (List Nat) :=
  let micros := t / 1000
  if micros < 2 ^ 63 then some (i64_encode (micros : Int)) else none

/-- Embeds `impl Decode<Postgres> for NaiveTime` (`chrono.rs`): decodes an
i64 microsecond count and adds it to midnight; chrono `NaiveTime + Duration`
wraps around midnight, and a buffer shorter than 8 bytes diverges inside
the i64 read. -/
def NaiveTime_decode (buf : List Nat) : Option (Except DecodeError Nat) :=
  match i64_decode buf with
  | none => none
  | some (Except.error e) => some (Except.error e)
  | some (Except.ok micros) =>
      some (Except.ok ((micros * 1000 % (nsPerDay : Int)).toNat))

/-- Embeds `impl Encode<Postgres> for NaiveDate` (`chrono.rs`), on a
`NaiveDate` denoted by its day offset from the Postgres epoch: the day
count goes through `try_into` to i32 and then the i32 encoder; the
`try_into` failure branch calls a diverging closure (`unwrap_or_else`
with a `panic`), embedded as `none`. -/
def NaiveDate_encode (date : Int) : Option (List Nat) :=
  if -(2 ^ 31) ≤ date ∧ date < 2 ^ 31 then some (i32_encode date) else none

/-- Embeds `impl Decode<Postgres> for NaiveDate` (`chrono.rs`): decodes an
i32 day count and adds it to `NaiveDate::from_ymd(2000, 1, 1)`; chrono's
`NaiveDate + Duration` diverges when the sum leaves the representable
date range, embedded as `none`. -/
def NaiveDate_decode (buf : List Nat) : Option (Except DecodeError Int) :=
  match i32_decode buf with
  | none => none
  | some (Except.error e) => some (Except.error e)
  | some (Except.ok days) =>
      if naiveDateMinDays ≤ days ∧ days ≤ naiveDateMaxDays then
        some (Except.ok days)
      else none

/-- Smallest chrono `NaiveDateTime` as nanoseconds from the Postgres epoch
(midnight of the smallest date). -/
def naiveDateTimeMinNanos : Int := naiveDateMinDays * (nsPerDay : Int)

/-- Largest chrono `NaiveDateTime` as nanoseconds from the Postgres epoch
(last nanosecond of the largest date). -/
def naiveDateTimeMaxNanos : Int := (naiveDateMaxDays + 1) * (nsPerDay : Int) - 1

/-- Embeds `impl Encode<Postgres> for NaiveDateTime` (`chrono.rs`), on a
`NaiveDateTime` denoted by its nanoseconds from the Postgres epoch:
`signed_duration_since` the epoch then `num_microseconds`, which floors
to whole microseconds and is `None` outside i64 — the source maps that
to a diverging closure, embedded as `none`. -/
def NaiveDateTime_encode (t : Int) : Option (List Nat) :=
  let micros := Int.fdiv t 1000
  if -(2 ^ 63) ≤ micros ∧ micros < 2 ^ 63 then some (i64_encode micros) else none

/-- Embeds `impl Decode<Postgres> for NaiveDateTime` (`chrono.rs`): decodes
an i64 microsecond count; `checked_add_signed` on the epoch yields the
instant when it is representable and `None` otherwise, which the source
maps to `DecodeError::Message`. -/
def NaiveDateTime_decode (buf : List Nat) : Option (Except DecodeError Int) :=
  match i64_decode buf with
  | none => none
  | some (Except.error e) => some (Except.error e)
  | some (Except.ok micros) =>
      if naiveDateTimeMinNanos ≤ micros * 1000 ∧ micros * 1000 ≤ naiveDateTimeMaxNanos then
        some (Except.ok (micros * 1000))
      else
        some (Except.error
          (DecodeError.Message "Postgres timestamp out of range for NaiveDateTime"))

/-- Embeds chrono `DateTime<Tz>`: an instant stored as its naive-UTC
nanoseconds from the Postgres epoch together with the zone's UTC offset
in seconds; `naive_utc()` returns the stored UTC instant. -/
structure DateTimeTz where
  utc : Int
  offsetSec : Int

/-- Local calendar reading of a zoned date-time, as chrono's
`naive_local` computes it: UTC instant plus zone offset. -/
def DateTimeTz.naiveLocal (z : DateTimeTz) : Int :=
  z.utc + z.offsetSec * 1000000000

/-- Embeds `impl Encode<Postgres> for DateTime<Tz>` (`chrono.rs`): it
encodes `self.naive_utc()` through the `NaiveDateTime` encoder. -/
def DateTimeTz_encode (z : DateTimeTz) : Option (List Nat) :=
  NaiveDateTime_encode z.utc

/-- Modelled from the spec: the `TypeId` constants of
`postgres/protocol` are not among the provided sources; the spec states
that every registered scalar or array type carries its own backend
identifier, so the distinct constants named by `int.rs` and `chrono.rs`
are modelled as distinct identifiers. -/
inductive TypeId where
  | INT2 | ARRAY_INT2 | INT4 | ARRAY_INT4 | INT8 | ARRAY_INT8
  | TIME | DATE | TIMESTAMP | TIMESTAMPTZ
  | ARRAY_TIME | ARRAY_DATE | ARRAY_TIMESTAMP | ARRAY_TIMESTAMPTZ
  deriving DecidableEq

/-- Embeds `PgTypeInfo::new(id, name)` as the `HasSqlType` impls build it:
a backend identifier paired with a display name. -/
structure PgTypeInfo where
  id : TypeId
  name : String
  deriving DecidableEq

/-- Embeds `impl HasSqlType<NaiveDateTime> for Postgres` (`chrono.rs`). -/
def hasSqlType_NaiveDateTime : PgTypeInfo := ⟨TypeId.TIMESTAMP, "timestamp"⟩

/-- Embeds `impl HasSqlType<DateTime<Tz>> for Postgres` (`chrono.rs`); the
descriptor is the same for every `Tz`. -/
def hasSqlType_DateTimeTz : PgTypeInfo := ⟨TypeId.TIMESTAMPTZ, "timestamptz"⟩

/-- Embeds `impl HasSqlType<[NaiveDateTime]> for Postgres` (`chrono.rs`
lines 52-56). -/
def hasSqlType_array_NaiveDateTime : PgTypeInfo := ⟨TypeId.ARRAY_TIMESTAMP, "timestamp[]"⟩

/-- Embeds `impl HasSqlType<[DateTime<Tz>]> for Postgres` (`chrono.rs`
lines 58-65); the descriptor is the same for every `Tz`. -/
def hasSqlType_array_DateTimeTz : PgTypeInfo := ⟨TypeId.ARRAY_TIMESTAMPTZ, "timestamp[]"⟩

/-- Modelled from the spec: the connection-pool implementation is not
among the provided sources (only its smoke test is), so the pool is
modelled from spec sections 4.4 and 5 as a state over connection
identities: the ordered idle set, the identities held by live leases
(the outstanding connections), and a counter supplying fresh identities
for newly established connections. -/
structure PoolState where
  idle : List Nat
  leased : List Nat
  nextId : Nat

/-- Pool of a freshly constructed pool: no connections, nothing leased. -/
def initPool : PoolState := ⟨[], [], 0⟩

/-- Modelled from the spec: one atomic pool transition (spec section 5
serializes every pool mutation under a single lock, so a concurrent
history is an interleaving of these steps). `acquireIdle` hands the head
idle connection to a lease; `acquireNew` establishes a fresh connection
when no idle one exists and `outstanding_count < max_size`;
`releaseUsable` returns a leased connection to the idle set;
`releaseBroken` discards a leased connection found unusable. -/
inductive PoolStep (maxSize : Nat) : PoolState → PoolState → Prop where
  | acquireIdle (s : PoolState) (c : Nat) (rest : List Nat) :
      s.idle = c :: rest →
      PoolStep maxSize s ⟨rest, c :: s.leased, s.nextId⟩
  | acquireNew (s : PoolState) :
      s.idle = [] → s.leased.length < maxSize →
      PoolStep maxSize s ⟨[], s.nextId :: s.leased, s.nextId + 1⟩
  | releaseUsable (s : PoolState) (c : Nat) :
      c ∈ s.leased →
      PoolStep maxSize s ⟨c :: s.idle, s.leased.erase c, s.nextId⟩
  | releaseBroken (s : PoolState) (c : Nat) :
      c ∈ s.leased →
      PoolStep maxSize s ⟨s.idle, s.leased.erase c, s.nextId⟩

/-- Pool states reachable from the initial pool by acquire and release
steps. -/
def PoolReachable (maxSize : Nat) (s : PoolState) : Prop :=
  Relation.ReflTransGen (PoolStep maxSize) initPool s

/-- Internal invariant of the pool model: capacity is respected, no
connection identity appears twice among idle and leased connections,
and every identity is below the freshness counter. -/
def PoolInv (maxSize : Nat) (s : PoolState) : Prop :=
  s.idle.length + s.leased.length ≤ maxSize ∧
  (s.idle ++ s.leased).Nodup ∧
  ∀ c ∈ s.idle ++ s.leased, c < s.nextId

theorem poolInv_init (maxSize : Nat) : PoolInv maxSize initPool := by
  refine ⟨by simp [initPool], by simp [initPool], by simp [initPool]⟩

theorem poolInv_step (maxSize : Nat) (s s' : PoolState)
    (hs : PoolInv maxSize s) (h : PoolStep maxSize s s') : PoolInv maxSize s' := by
  obtain ⟨hlen, hnd, hfresh⟩ := hs
  cases h with
  | acquireIdle c rest hidle =>
      have hperm : (rest ++ c :: s.leased).Perm (s.idle ++ s.leased) := by
        rw [hidle, List.cons_append]
        exact List.perm_middle
      refine ⟨?_, ?_, ?_⟩
      · have hql := hperm.length_eq
        simp only [List.length_append, List.length_cons] at hql ⊢
        omega
      · exact hperm.nodup_iff.mpr hnd
      · intro x hx
        exact hfresh x (hperm.mem_iff.mp hx)
  | acquireNew hempty hcap =>
      refine ⟨?_, ?_, ?_⟩
      · simpa using hcap
      · have hndl : s.leased.Nodup := hnd.of_append_right
        have hnotmem : s.nextId ∉ s.leased := fun hmem =>
          lt_irrefl s.nextId (hfresh s.nextId (List.mem_append_right s.idle hmem))
        simpa using ⟨hnotmem, hndl⟩
      · intro x hx
        simp only [List.nil_append, List.mem_cons] at hx
        rcases hx with rfl | hx
        · simp
        · have hlt := hfresh x (List.mem_append_right s.idle hx)
          simp only [] at hlt ⊢
          omega
  | releaseUsable c hc =>
      have hek : (s.leased.erase c).length = s.leased.length - 1 :=
        List.length_erase_of_mem hc
      have hdisj : s.idle.Disjoint s.leased := List.disjoint_of_nodup_append hnd
      have hsub : (s.idle ++ s.leased.erase c).Sublist (s.idle ++ s.leased) :=
        (List.erase_sublist c s.leased).append_left s.idle
      refine ⟨?_, ?_, ?_⟩
      · have hpos : 0 < s.leased.length := List.length_pos.mpr (List.ne_nil_of_mem hc)
        simp only [List.length_cons, List.length_append] at hlen ⊢
        omega
      · have hcni : c ∉ s.idle := fun hci => hdisj hci hc
        have hcne : c ∉ s.leased.erase c := (hnd.of_append_right).not_mem_erase
        have hnds : (s.idle ++ s.leased.erase c).Nodup := hnd.sublist hsub
        simp only [List.cons_append, List.nodup_cons]
        refine ⟨?_, hnds⟩
        simp only [List.mem_append]
        tauto
      · intro x hx
        simp only [List.cons_append, List.mem_cons, List.mem_append] at hx
        rcases hx with rfl | hx | hx
        · exact hfresh x (List.mem_append_right s.idle hc)
        · exact hfresh x (List.mem_append_left s.leased hx)
        · exact hfresh x (List.mem_append_right s.idle (List.mem_of_mem_erase hx))
  | releaseBroken c hc =>
      have hek : (s.leased.erase c).length = s.leased.length - 1 :=
        List.length_erase_of_mem hc
      have hsub : (s.idle ++ s.leased.erase c).Sublist (s.idle ++ s.leased) :=
        (List.erase_sublist c s.leased).append_left s.idle
      refine ⟨?_, hnd.sublist hsub, ?_⟩
      · simp only [List.length_append] at hlen ⊢
        omega
      · intro x hx
        exact hfresh x (hsub.subset hx)

theorem poolInv_reachable (maxSize : Nat) (s : PoolState)
    (h : PoolReachable maxSize s) : PoolInv maxSize s := by
  induction h with
  | refl => exact poolInv_init maxSize
  | tail _ hstep ih => exact poolInv_step maxSize _ _ ih hstep

/-- C3, counterexample: a 3-byte buffer has the wrong length for i16, yet
decode succeeds on the first two bytes instead of returning
`DecodeError::Malformed`. -/
theorem i16_decode_succeeds_on_longer_buffer :
    ([0, 1, 7] : List Nat).length ≠ 2 ∧ i16_decode [0, 1, 7] = some (Except.ok 1) := by
  exact ⟨by decide, rfl⟩

/-- C3 (amended): integer decode never returns a `DecodeError` at all: a
buffer shorter than the fixed width makes the `byteorder` reader diverge,
and a buffer of at least the width succeeds on its first `width` bytes. -/
theorem int_decode_wrong_length_behavior :
    (∀ buf : List Nat, buf.length < 2 → i16_decode buf = none) ∧
    (∀ buf : List Nat, 2 ≤ buf.length →
      i16_decode buf = some (Except.ok (sdec 2 (bytesToNat (buf.take 2))))) ∧
    (∀ (buf : List Nat) (e : DecodeError), i16_decode buf ≠ some (Except.error e)) ∧
    (∀ buf : List Nat, buf.length < 4 → i32_decode buf = none) ∧
    (∀ buf : List Nat, 4 ≤ buf.length →
      i32_decode buf = some (Except.ok (sdec 4 (bytesToNat (buf.take 4))))) ∧
    (∀ (buf : List Nat) (e : DecodeError), i32_decode buf ≠ some (Except.error e)) ∧
    (∀ buf : List Nat, buf.length < 8 → i64_decode buf = none) ∧
    (∀ buf : List Nat, 8 ≤ buf.length →
      i64_decode buf = some (Except.ok (sdec 8 (bytesToNat (buf.take 8))))) ∧
    (∀ (buf : List Nat) (e : DecodeError), i64_decode buf ≠ some (Except.error e)) := by
  refine ⟨?_, ?_, ?_, ?_, ?_, ?_, ?_, ?_, ?_⟩
  · intro buf h; unfold i16_decode; rw [if_pos h]
  · intro buf h; unfold i16_decode; rw [if_neg (by omega)]
  · intro buf e; unfold i16_decode; split <;> simp
  · intro buf h; unfold i32_decode; rw [if_pos h]
  · intro buf h; unfold i32_decode; rw [if_neg (by omega)]
  · intro buf e; unfold i32_decode; split <;> simp
  · intro buf h; unfold i64_decode; rw [if_pos h]
  · intro buf h; unfold i64_decode; rw [if_neg (by omega)]
  · intro buf e; unfold i64_decode; split <;> simp

/-- C3, witness for the amended theorem at concrete buffers. -/
theorem int_decode_wrong_length_behavior_witness :
    i16_decode [5] = none ∧
    i16_decode [1, 2, 3] = some (Except.ok 258) ∧
    i16_decode [9, 9] ≠ some (Except.error DecodeError.Malformed) ∧
    i32_decode [5] = none ∧
    i64_decode [5] = none := by
  refine ⟨?_, ?_, ?_, ?_, ?_⟩
  · exact int_decode_wrong_length_behavior.1 [5] (by decide)
  · exact int_decode_wrong_length_behavior.2.1 [1, 2, 3] (by decide)
  · exact int_decode_wrong_length_behavior.2.2.1 [9, 9] DecodeError.Malformed
  · exact int_decode_wrong_length_behavior.2.2.2.1 [5] (by decide)
  · exact int_decode_wrong_length_behavior.2.2.2.2.2.2.1 [5] (by decide)

/-- C2, counterexample: at the first day offset past the i32 range the
source's `NaiveDate` encode diverges (the `unwrap_or_else` closure) rather
than returning an `EncodeError::OutOfRange` value — the `Encode` interface
has no error channel at all. -/
theorem NaiveDate_encode_out_of_range_diverges :
    NaiveDate_encode 2147483648 = none := rfl

/-- C2 (amended): for every day offset outside the 32-bit signed range the
`NaiveDate` encoder diverges before producing any bytes — it never
silently truncates, but the failure is a divergence, not a returned
`EncodeError::OutOfRange`. -/
theorem NaiveDate_encode_no_silent_truncation :
    ∀ d : Int, (d < -(2 ^ 31) ∨ 2 ^ 31 ≤ d) → NaiveDate_encode d = none := by
  intro d hd
  unfold NaiveDate_encode
  rw [if_neg (by omega)]

/-- C2, witness for the amended theorem at a concrete out-of-range offset. -/
theorem NaiveDate_encode_no_silent_truncation_witness :
    NaiveDate_encode 5000000000 = none :=
  NaiveDate_encode_no_silent_truncation 5000000000 (Or.inr (by norm_num))

/-- C4 (confirmed): encoding the protocol epoch date and epoch instant
produces all-zero bytes of width 4 and 8 respectively, and decoding those
all-zero buffers reproduces the epoch date and instant. -/
theorem epoch_fixed_points :
    NaiveDate_encode (civilDate 2000 1 1) = some [0, 0, 0, 0] ∧
    NaiveDate_decode [0, 0, 0, 0] = some (Except.ok (civilDate 2000 1 1)) ∧
    NaiveDateTime_encode 0 = some [0, 0, 0, 0, 0, 0, 0, 0] ∧
    NaiveDateTime_decode [0, 0, 0, 0, 0, 0, 0, 0] = some (Except.ok 0) := by
  exact ⟨rfl, rfl, rfl, rfl⟩

/-- C5 (confirmed): the reference vectors — one hour past the epoch
encodes to the 8-byte big-endian form of 3600000000 microseconds, the
dates 2001-01-01 and 2019-12-11 encode to the 4-byte big-endian integers
366 and 7284. -/
theorem known_vectors :
    NaiveDateTime_encode 3600000000000 = some [0, 0, 0, 0, 214, 147, 164, 0] ∧
    intToBeBytes 8 3600000000 = [0, 0, 0, 0, 214, 147, 164, 0] ∧
    NaiveDateTime_decode [0, 0, 0, 0, 214, 147, 164, 0] = some (Except.ok 3600000000000) ∧
    NaiveDate_encode (civilDate 2001 1 1) = some [0, 0, 1, 110] ∧
    intToBeBytes 4 366 = [0, 0, 1, 110] ∧
    NaiveDate_encode (civilDate 2019 12 11) = some [0, 0, 28, 116] ∧
    intToBeBytes 4 7284 = [0, 0, 28, 116] := by
  exact ⟨rfl, rfl, rfl, rfl, rfl, rfl, rfl⟩

/-- C8, counterexample: the backend identifiers of the zoned and naive
timestamp array descriptors are not equal — the source registers
`ARRAY_TIMESTAMPTZ` for zoned arrays, a distinct identifier from
`ARRAY_TIMESTAMP`. -/
theorem tz_array_id_differs :
    hasSqlType_array_DateTimeTz.id ≠ hasSqlType_array_NaiveDateTime.id := by
  decide

/-- C8 (amended): what the zoned date-time array descriptor shares with
the naive timestamp array descriptor is its display name, the string
"timestamp[]" (instead of a timestamptz-specific name); its backend
identifier is the distinct `ARRAY_TIMESTAMPTZ`. -/
theorem tz_array_shares_name_not_id :
    hasSqlType_array_DateTimeTz.name = hasSqlType_array_NaiveDateTime.name ∧
    hasSqlType_array_DateTimeTz.id ≠ hasSqlType_array_NaiveDateTime.id ∧
    hasSqlType_array_DateTimeTz.id = TypeId.ARRAY_TIMESTAMPTZ := by
  exact ⟨rfl, by decide, rfl⟩

/-- C9, counterexample: the 4-byte input holding the largest i32 day count
makes the `NaiveDate` decode diverge (chrono's date addition leaves the
representable range), so decode is not total over all 2^32 inputs. -/
theorem NaiveDate_decode_diverges_at_max_i32 :
    NaiveDate_decode [127, 255, 255, 255] = none := rfl

/-- C9 (amended): for every 4-byte input, decode reads the bytes as a
big-endian signed day count and returns the epoch plus that many days
whenever the sum stays inside the native date type's representable range;
for day counts outside that range the decode diverges. -/
theorem NaiveDate_decode_in_range_total :
    ∀ buf : List Nat, buf.length = 4 →
      (naiveDateMinDays ≤ sdec 4 (bytesToNat buf) ∧
          sdec 4 (bytesToNat buf) ≤ naiveDateMaxDays →
        NaiveDate_decode buf = some (Except.ok (sdec 4 (bytesToNat buf)))) ∧
      (¬(naiveDateMinDays ≤ sdec 4 (bytesToNat buf) ∧
          sdec 4 (bytesToNat buf) ≤ naiveDateMaxDays) →
        NaiveDate_decode buf = none) := by
  intro buf hlen
  have htake : buf.take 4 = buf := List.take_of_length_le (le_of_eq hlen)
  constructor
  · intro hrange
    unfold NaiveDate_decode i32_decode
    rw [if_neg (by omega), htake]
    show (if naiveDateMinDays ≤ sdec 4 (bytesToNat buf) ∧
        sdec 4 (bytesToNat buf) ≤ naiveDateMaxDays then
      some (Except.ok (sdec 4 (bytesToNat buf))) else none) = _
    rw [if_pos hrange]
  · intro hrange
    unfold NaiveDate_decode i32_decode
    rw [if_neg (by omega), htake]
    show (if naiveDateMinDays ≤ sdec 4 (bytesToNat buf) ∧
        sdec 4 (bytesToNat buf) ≤ naiveDateMaxDays then
      some (Except.ok (sdec 4 (bytesToNat buf))) else none) = _
    rw [if_neg hrange]

/-- C9, witness for the amended theorem at a concrete in-range buffer. -/
theorem NaiveDate_decode_in_range_total_witness :
    NaiveDate_decode [0, 0, 1, 110] =
      some (Except.ok (sdec 4 (bytesToNat [0, 0, 1, 110]))) :=
  (NaiveDate_decode_in_range_total [0, 0, 1, 110] (by decide)).1 (by decide)

/-- C7 (confirmed): for every valid time of day (nanoseconds below one
day) the microsecond count fits i64, so the `expect` branch of the
`NaiveTime` encoder is unreachable and encode always produces the 8-byte
big-endian microsecond count. -/
theorem naive_time_encode_total :
    ∀ t : Nat, t < nsPerDay →
      NaiveTime_encode t = some (i64_encode ((t / 1000 : Nat) : Int)) := by
  intro t ht
  unfold nsPerDay at ht
  unfold NaiveTime_encode
  rw [if_pos (by omega)]

/-- C7, witness at the last microsecond-aligned instant of the day. -/
theorem naive_time_encode_total_witness :
    NaiveTime_encode 86399999999999 = some (i64_encode 86399999999) :=
  naive_time_encode_total 86399999999999 (by decide)

/-- C6 (confirmed): a zoned date-time encodes exactly as the naive
date-time obtained by normalizing its local reading back to UTC, and two
zoned values denoting the same UTC instant encode to the same bytes
whatever their offsets. -/
theorem tz_encode_normalizes_to_utc :
    (∀ z : DateTimeTz, DateTimeTz_encode z =
      NaiveDateTime_encode (z.naiveLocal - z.offsetSec * 1000000000)) ∧
    (∀ z1 z2 : DateTimeTz,
      z1.naiveLocal - z1.offsetSec * 1000000000 =
          z2.naiveLocal - z2.offsetSec * 1000000000 →
      DateTimeTz_encode z1 = DateTimeTz_encode z2) := by
  constructor
  · intro z
    unfold DateTimeTz_encode DateTimeTz.naiveLocal
    ring_nf
  · intro z1 z2 h
    unfold DateTimeTz.naiveLocal at h
    unfold DateTimeTz_encode
    have : z1.utc = z2.utc := by omega
    rw [this]

/-- C6, witness: a UTC+1 reading and a UTC-5 reading of the same instant
encode alike, and equal the UTC-normalized naive encoding. -/
theorem tz_encode_normalizes_to_utc_witness :
    DateTimeTz_encode ⟨0, 3600⟩ =
      NaiveDateTime_encode ((DateTimeTz.mk 0 3600).naiveLocal - 3600 * 1000000000) ∧
    DateTimeTz_encode ⟨0, 3600⟩ = DateTimeTz_encode ⟨0, -18000⟩ := by
  constructor
  · exact tz_encode_normalizes_to_utc.1 ⟨0, 3600⟩
  · exact tz_encode_normalizes_to_utc.2 ⟨0, 3600⟩ ⟨0, -18000⟩ (by decide)

/-- C1, counterexample: a `NaiveTime` of 1500 nanoseconds past midnight is
a representable native value, but encoding floors it to 1 microsecond and
decoding returns 1000 nanoseconds, so `decode (encode v)` is `Ok` of a
different value. -/
theorem naive_time_roundtrip_fails_below_microsecond :
    NaiveTime_encode 1500 = some [0, 0, 0, 0, 0, 0, 0, 1] ∧
    NaiveTime_decode [0, 0, 0, 0, 0, 0, 0, 1] = some (Except.ok 1000) ∧
    (1000 : Nat) ≠ 1500 := by
  exact ⟨rfl, rfl, by decide⟩

/-- C1 (amended): decode inverts encode for every in-range i16, i32 and
i64, for every representable `NaiveDate`, and for every `NaiveTime` and
`NaiveDateTime` whose sub-second part is a whole number of microseconds;
values with a fractional microsecond are floored by the wire format, so
the round-trip holds exactly on whole-microsecond values. -/
theorem codec_roundtrip :
    (∀ v : Int, -32768 ≤ v → v < 32768 →
      i16_decode (i16_encode v) = some (Except.ok v)) ∧
    (∀ v : Int, -2147483648 ≤ v → v < 2147483648 →
      i32_decode (i32_encode v) = some (Except.ok v)) ∧
    (∀ v : Int, -9223372036854775808 ≤ v → v < 9223372036854775808 →
      i64_decode (i64_encode v) = some (Except.ok v)) ∧
    (∀ d : Int, naiveDateMinDays ≤ d → d ≤ naiveDateMaxDays →
      ∃ bs, NaiveDate_encode d = some bs ∧
        NaiveDate_decode bs = some (Except.ok d)) ∧
    (∀ t : Nat, t < nsPerDay → t % 1000 = 0 →
      ∃ bs, NaiveTime_encode t = some bs ∧
        NaiveTime_decode bs = some (Except.ok t)) ∧
    (∀ t : Int, naiveDateTimeMinNanos ≤ t → t ≤ naiveDateTimeMaxNanos → t % 1000 = 0 →
      ∃ bs, NaiveDateTime_encode t = some bs ∧
        NaiveDateTime_decode bs = some (Except.ok t)) := by
  have hmind : naiveDateMinDays = -96476615 := by decide
  have hmaxd : naiveDateMaxDays = 95015644 := by decide
  refine ⟨?_, ?_, ?_, ?_, ?_, ?_⟩
  · intro v h1 h2
    unfold i16_encode i16_decode
    rw [if_neg (by rw [intToBeBytes_length]; omega), take_intToBeBytes,
      sdec_intToBeBytes 2 v (by norm_num; omega) (by norm_num; omega)]
  · intro v h1 h2
    unfold i32_encode i32_decode
    rw [if_neg (by rw [intToBeBytes_length]; omega), take_intToBeBytes,
      sdec_intToBeBytes 4 v (by norm_num; omega) (by norm_num; omega)]
  · intro v h1 h2
    unfold i64_encode i64_decode
    rw [if_neg (by rw [intToBeBytes_length]; omega), take_intToBeBytes,
      sdec_intToBeBytes 8 v (by norm_num; omega) (by norm_num; omega)]
  · intro d hmin hmax
    rw [hmind] at hmin
    rw [hmaxd] at hmax
    refine ⟨i32_encode d, ?_, ?_⟩
    · unfold NaiveDate_encode
      rw [if_pos (by constructor <;> omega)]
    · unfold NaiveDate_decode i32_decode i32_encode
      rw [if_neg (by rw [intToBeBytes_length]; omega), take_intToBeBytes,
        sdec_intToBeBytes 4 d (by norm_num; omega) (by norm_num; omega)]
      show (if naiveDateMinDays ≤ d ∧ d ≤ naiveDateMaxDays then
        some (Except.ok d) else none) = _
      rw [if_pos (by rw [hmind, hmaxd]; constructor <;> omega)]
  · intro t ht hmod
    unfold nsPerDay at ht
    refine ⟨i64_encode ((t / 1000 : Nat) : Int), ?_, ?_⟩
    · unfold NaiveTime_encode
      rw [if_pos (by omega)]
    · unfold NaiveTime_decode i64_decode i64_encode
      rw [if_neg (by rw [intToBeBytes_length]; omega), take_intToBeBytes,
        sdec_intToBeBytes 8 ((t / 1000 : Nat) : Int) (by norm_num; omega) (by norm_num; omega)]
      show some (Except.ok ((((t / 1000 : Nat) : Int) * 1000 % (nsPerDay : Nat)).toNat)) = _
      have hval : ((((t / 1000 : Nat) : Int) * 1000 % ((nsPerDay : Nat) : Int)).toNat) = t := by
        unfold nsPerDay
        omega
      rw [hval]
  · intro t hmin hmax hmod
    have hminv : naiveDateTimeMinNanos = -8335579536000000000000 := by decide
    have hmaxv : naiveDateTimeMaxNanos = 8209351727999999999999 := by decide
    rw [hminv] at hmin
    rw [hmaxv] at hmax
    have hfd : Int.fdiv t 1000 * 1000 = t := by
      rw [Int.fdiv_eq_ediv t (by norm_num)]
      omega
    refine ⟨i64_encode (Int.fdiv t 1000), ?_, ?_⟩
    · unfold NaiveDateTime_encode
      rw [if_pos (by constructor <;> [norm_num; skip] <;> omega)]
    · unfold NaiveDateTime_decode i64_decode i64_encode
      rw [if_neg (by rw [intToBeBytes_length]; omega), take_intToBeBytes,
        sdec_intToBeBytes 8 (Int.fdiv t 1000) (by norm_num; omega) (by norm_num; omega)]
      show (if naiveDateTimeMinNanos ≤ Int.fdiv t 1000 * 1000 ∧
          Int.fdiv t 1000 * 1000 ≤ naiveDateTimeMaxNanos then
        some (Except.ok (Int.fdiv t 1000 * 1000)) else _) = _
      rw [hfd, if_pos (by rw [hminv, hmaxv]; constructor <;> omega)]

/-- C1, witness for the amended round-trip theorem at concrete values of
each codec type. -/
theorem codec_roundtrip_witness :
    i16_decode (i16_encode 5) = some (Except.ok 5) ∧
    i32_decode (i32_encode (-70000)) = some (Except.ok (-70000)) ∧
    i64_decode (i64_encode 3600000000) = some (Except.ok 3600000000) ∧
    (∃ bs, NaiveDate_encode 366 = some bs ∧
      NaiveDate_decode bs = some (Except.ok 366)) ∧
    (∃ bs, NaiveTime_encode 3600000000000 = some bs ∧
      NaiveTime_decode bs = some (Except.ok 3600000000000)) ∧
    (∃ bs, NaiveDateTime_encode (-1000) = some bs ∧
      NaiveDateTime_decode bs = some (Except.ok (-1000))) := by
  refine ⟨?_, ?_, ?_, ?_, ?_, ?_⟩
  · exact codec_roundtrip.1 5 (by norm_num) (by norm_num)
  · exact codec_roundtrip.2.1 (-70000) (by norm_num) (by norm_num)
  · exact codec_roundtrip.2.2.1 3600000000 (by norm_num) (by norm_num)
  · exact codec_roundtrip.2.2.2.1 366 (by decide) (by decide)
  · exact codec_roundtrip.2.2.2.2.1 3600000000000 (by decide) (by decide)
  · exact codec_roundtrip.2.2.2.2.2 (-1000) (by decide) (by decide) (by decide)

/-- C10 (confirmed, against the spec-modelled pool): along every
interleaving of acquire and release steps from the initial pool, the
outstanding (leased) plus idle connection count never exceeds `max_size`,
and the identities held by live leases are pairwise distinct — no two
live leases share a connection. -/
theorem pool_capacity_and_lease_exclusivity :
    ∀ (maxSize : Nat) (s : PoolState), PoolReachable maxSize s →
      s.leased.length + s.idle.length ≤ maxSize ∧ s.leased.Nodup := by
  intro maxSize s h
  obtain ⟨hlen, hnd, _⟩ := poolInv_reachable maxSize s h
  exact ⟨by omega, hnd.of_append_right⟩

/-- C10, witness: a three-step history at `max_size = 2` — two fresh
acquisitions followed by one usable release — reaches a state satisfying
the capacity bound and lease distinctness. -/
theorem pool_capacity_and_lease_exclusivity_witness :
    (PoolState.mk [0] [1] 2).leased.length + (PoolState.mk [0] [1] 2).idle.length ≤ 2 ∧
    (PoolState.mk [0] [1] 2).leased.Nodup := by
  refine pool_capacity_and_lease_exclusivity 2 ⟨[0], [1], 2⟩ ?_
  have h1 : PoolStep 2 initPool ⟨[], [0], 1⟩ :=
    PoolStep.acquireNew initPool rfl (by decide)
  have h2 : PoolStep 2 ⟨[], [0], 1⟩ ⟨[], [1, 0], 2⟩ :=
    PoolStep.acquireNew ⟨[], [0], 1⟩ rfl (by decide)
  have h3 : PoolStep 2 ⟨[], [1, 0], 2⟩ ⟨[0], [1], 2⟩ :=
    PoolStep.releaseUsable ⟨[], [1, 0], 2⟩ 0 (by decide)
  exact Relation.ReflTransGen.tail
    (Relation.ReflTransGen.tail (Relation.ReflTransGen.tail Relation.ReflTransGen.refl h1) h2) h3
